import Mathlib

/-!
Shallow embedding of `src/scripts/live-image-post-update-version.py`
(clearlinux/clr-installer).

The script defines one function, `append_rootwait(path)`, which
  1. lists `<path>/boot/loader/entries/`,
  2. requires exactly one entry there,
  3. reads that file's lines (Python `readlines`, terminators kept),
  4. requires the last line to start with `"options "`,
  5. replaces the last line by `line[:-1] + " rootwait\n"`,
  6. unlinks the file and rewrites it with the updated lines,
and a `__main__` block wrapping it with argument-count and exception
handling.

The filesystem is modelled as the contents of the entries directory: a
list of `(name, content)` pairs, with contents as `List Char` (the text
read in Python's default text mode).  `append_rootwait` returns both the
trace of filesystem operations it performs, in order, and either the
resulting directory contents or the Python exception raised.
-/

namespace LiveImage

/-- File contents, as the character sequence Python reads in text mode. -/
abbrev Content := List Char

/-- Contents of the entries directory: `(file name, file content)` pairs.
`os.listdir` yields the names in this order. -/
abbrev Dir := List (String × Content)

/-- Python `file.readlines()`: split the text into lines, each line keeping
its trailing `'\n'`; a final fragment not terminated by `'\n'` is also a
line; the empty text yields no lines. -/
def readlines : Content → List Content
  | [] => []
  | c :: cs =>
    if c = '\n' then ['\n'] :: readlines cs
    else
      match readlines cs with
      | [] => [[c]]
      | l :: ls => (c :: l) :: ls

/-- The exceptions `append_rootwait` can raise. -/
inductive PyErr where
  /-- `Exception("Unable to find specific entry file in {0}, found {1}
  instead")` with the entries directory path and the listing. -/
  | wrongEntryCount (dir : String) (listing : List String)
  /-- `Exception("Last line of entry file is not the kernel commandline
  options")`. -/
  | badOptionsLine
  /-- `IndexError` from `entry_content[-1]` on an empty list. -/
  | indexError
deriving DecidableEq

/-- Python `repr` of a list of strings, as `print` would show it inside
the formatted message (e.g. `['a.conf', 'b.conf']`). -/
def pyListRepr (xs : List String) : String :=
  "[" ++ String.intercalate ", " (xs.map fun s => "'" ++ s ++ "'") ++ "]"

/-- `str(exep)`: the human-readable description of each exception. -/
def PyErr.str : PyErr → String
  | .wrongEntryCount d listing =>
      "Unable to find specific entry file in " ++ d ++ ", found " ++
        pyListRepr listing ++ " instead"
  | .badOptionsLine =>
      "Last line of entry file is not the kernel commandline options"
  | .indexError => "list index out of range"

/-- The filesystem operations the script performs, in program order. -/
inductive FsOp where
  | listdir (p : String)
  | readFile (p : String)
  | unlink (p : String)
  | writeFile (p : String) (content : Content)
deriving DecidableEq

/-- `entry_path = path + "/boot/loader/entries/"`. -/
def entriesDir (path : String) : String := path ++ "/boot/loader/entries/"

/-- The literal prefix checked by `options_line.startswith("options ")`. -/
def optionsPrefix : Content := "options ".toList

/-- The literal suffix appended: `" rootwait\n"`. -/
def rootwaitSuffix : Content := " rootwait\n".toList

/-- `append_rootwait(path)` acting on the entries directory `dir`:
returns the trace of filesystem operations performed and either the
updated directory contents or the exception raised.

Mirrors the source line by line: `os.listdir`, the count-1 check, the
read via `readlines`, the `startswith("options ")` check, the last-line
rewrite `options_line[:-1] + " rootwait\n"`, then `os.unlink` followed
by `open(..., "w")` / `writelines` (concatenation of the lines). -/
def append_rootwait (path : String) (dir : Dir) :
    List FsOp × Except PyErr Dir :=
  let entry_path := entriesDir path
  let entry_file := dir.map Prod.fst
  if entry_file.length ≠ 1 then
    ([.listdir entry_path],
     .error (.wrongEntryCount entry_path entry_file))
  else
    match dir with
    | [] =>
      -- unreachable under the length-1 guard
      ([.listdir entry_path], .error .indexError)
    | (name, content) :: rest =>
      let file_full_path := entry_path ++ name
      let entry_content := readlines content
      match entry_content.getLast? with
      | none =>
        -- `entry_content[-1]` on an empty list raises IndexError
        ([.listdir entry_path, .readFile file_full_path],
         .error .indexError)
      | some options_line =>
        if optionsPrefix.isPrefixOf options_line then
          let new_line := options_line.dropLast ++ rootwaitSuffix
          let new_content := (entry_content.dropLast ++ [new_line]).flatten
          ([.listdir entry_path, .readFile file_full_path,
            .unlink file_full_path, .writeFile file_full_path new_content],
           .ok ((name, new_content) :: rest))
        else
          ([.listdir entry_path, .readFile file_full_path],
           .error .badOptionsLine)

/-- Result of running the `__main__` block: process exit code, lines
printed to standard output, filesystem operations performed, and the
final entries-directory contents. -/
structure MainResult where
  exitCode : Int
  stdout : List String
  ops : List FsOp
  dir : Dir
deriving DecidableEq

/-- The `__main__` block: `sys.exit(-1)` when `len(sys.argv) != 2`;
otherwise run `append_rootwait(sys.argv[1])`, printing the exception and
exiting `-1` on error, exiting `0` on success.  `argv` is the full
Python `sys.argv`, script name included. -/
def main_block (argv : List String) (dir : Dir) : MainResult :=
  if argv.length ≠ 2 then
    { exitCode := -1, stdout := [], ops := [], dir := dir }
  else
    match argv.drop 1 with
    | [] => { exitCode := -1, stdout := [], ops := [], dir := dir }
    | path :: _ =>
      match append_rootwait path dir with
      | (ops, .ok dir') =>
        { exitCode := 0, stdout := [], ops := ops, dir := dir' }
      | (ops, .error e) =>
        { exitCode := -1, stdout := [e.str], ops := ops, dir := dir }

/-- Effect of one filesystem operation on the entries directory
(`entry_path` is the directory's path; `listdir`/`readFile` do not
change state; `unlink` removes the file at the given path; `writeFile`
creates or replaces it). -/
def applyOp (entry_path : String) (dir : Dir) : FsOp → Dir
  | .listdir _ => dir
  | .readFile _ => dir
  | .unlink p => dir.filter fun f => ¬ entry_path ++ f.1 = p
  | .writeFile p c =>
      (dir.filter fun f => ¬ entry_path ++ f.1 = p) ++
        (if entry_path.isPrefixOf p then
          [(p.drop entry_path.length, c)]
        else [])

/-- Entries-directory state after executing a sequence of operations. -/
def applyOps (entry_path : String) (dir : Dir) (ops : List FsOp) : Dir :=
  ops.foldl (applyOp entry_path) dir

/-- Whether a file exists at path `p` inside the entries directory. -/
def existsAt (entry_path : String) (dir : Dir) (p : String) : Bool :=
  dir.any fun f => entry_path ++ f.1 = p

/-- The line the code builds from the last line:
`options_line[:-1] + " rootwait\n"`. -/
def patchedLine (options_line : Content) : Content :=
  options_line.dropLast ++ rootwaitSuffix

deriving instance DecidableEq for Except

/-! ### Properties of `readlines` -/

theorem readlines_cons_nl (cs : Content) :
    readlines ('\n' :: cs) = ['\n'] :: readlines cs := by
  simp [readlines]

theorem readlines_cons_of_nil (c : Char) (cs : Content) (h : ¬ c = '\n')
    (h2 : readlines cs = []) : readlines (c :: cs) = [[c]] := by
  simp [readlines, h, h2]

theorem readlines_cons_of_cons (c : Char) (cs : Content) (l : Content)
    (ls : List Content) (h : ¬ c = '\n') (h2 : readlines cs = l :: ls) :
    readlines (c :: cs) = (c :: l) :: ls := by
  simp [readlines, h, h2]

/-- Every line produced by `readlines` is nonempty. -/
theorem readlines_ne_nil (s : Content) : ∀ l ∈ readlines s, l ≠ [] := by
  induction s with
  | nil => intro l hl; simp [readlines] at hl
  | cons c cs ih =>
    intro l hl
    by_cases h : c = '\n'
    · subst h
      rw [readlines_cons_nl] at hl
      rcases List.mem_cons.mp hl with rfl | hl
      · simp
      · exact ih l hl
    · cases h2 : readlines cs with
      | nil =>
        rw [readlines_cons_of_nil c cs h h2] at hl
        rcases List.mem_cons.mp hl with rfl | hl
        · simp
        · simp at hl
      | cons l0 ls =>
        rw [readlines_cons_of_cons c cs l0 ls h h2] at hl
        rcases List.mem_cons.mp hl with rfl | hl
        · simp
        · exact ih l (by rw [h2]; exact List.mem_cons_of_mem l0 hl)

/-- In every line produced by `readlines`, no character before the last
one is a newline. -/
theorem readlines_no_inner_nl (s : Content) :
    ∀ l ∈ readlines s, ∀ c ∈ l.dropLast, c ≠ '\n' := by
  induction s with
  | nil => intro l hl; simp [readlines] at hl
  | cons c cs ih =>
    intro l hl d hd
    by_cases h : c = '\n'
    · subst h
      rw [readlines_cons_nl] at hl
      rcases List.mem_cons.mp hl with rfl | hl
      · simp at hd
      · exact ih l hl d hd
    · cases h2 : readlines cs with
      | nil =>
        rw [readlines_cons_of_nil c cs h h2] at hl
        rcases List.mem_cons.mp hl with rfl | hl
        · simp at hd
        · simp at hl
      | cons l0 ls =>
        rw [readlines_cons_of_cons c cs l0 ls h h2] at hl
        rcases List.mem_cons.mp hl with rfl | hl
        · have hl0 : l0 ≠ [] :=
            readlines_ne_nil cs l0 (by rw [h2]; exact List.mem_cons_self _ _)
          cases l0 with
          | nil => exact absurd rfl hl0
          | cons c0 cs0 =>
            rw [List.dropLast_cons₂] at hd
            rcases List.mem_cons.mp hd with rfl | hd
            · exact h
            · exact ih (c0 :: cs0) (by rw [h2]; exact List.mem_cons_self _ _) d hd
        · exact ih l (by rw [h2]; exact List.mem_cons_of_mem l0 hl) d hd

/-- Every line except the last one produced by `readlines` ends with a
newline. -/
theorem readlines_dropLast_nl (s : Content) :
    ∀ l ∈ (readlines s).dropLast, l.getLast? = some '\n' := by
  induction s with
  | nil => intro l hl; simp [readlines] at hl
  | cons c cs ih =>
    intro l hl
    by_cases h : c = '\n'
    · subst h
      rw [readlines_cons_nl] at hl
      cases h3 : readlines cs with
      | nil => rw [h3] at hl; simp at hl
      | cons l0 ls =>
        rw [h3, List.dropLast_cons₂] at hl
        rcases List.mem_cons.mp hl with rfl | hl
        · rfl
        · exact ih l (by rw [h3]; exact hl)
    · cases h2 : readlines cs with
      | nil =>
        rw [readlines_cons_of_nil c cs h h2] at hl
        simp at hl
      | cons l0 ls =>
        rw [readlines_cons_of_cons c cs l0 ls h h2] at hl
        cases ls with
        | nil => simp at hl
        | cons l1 ls1 =>
          rw [List.dropLast_cons₂] at hl
          rcases List.mem_cons.mp hl with rfl | hl
          · have h0 : l0.getLast? = some '\n' :=
              ih l0 (by rw [h2, List.dropLast_cons₂]; exact List.mem_cons_self _ _)
            cases l0 with
            | nil => simp at h0
            | cons c0 cs0 => rw [List.getLast?_cons_cons]; exact h0
          · exact ih l
              (by rw [h2, List.dropLast_cons₂]; exact List.mem_cons_of_mem _ hl)

/-- `readlines` of a single nonempty line with no inner newline is that
line alone. -/
theorem readlines_singleton :
    ∀ l : Content, l ≠ [] → (∀ c ∈ l.dropLast, c ≠ '\n') →
      readlines l = [l]
  | [], hne, _ => absurd rfl hne
  | [c], _, _ => by
    by_cases h : c = '\n'
    · subst h; rw [readlines_cons_nl]; rfl
    · exact readlines_cons_of_nil c [] h rfl
  | c :: c1 :: cs1, _, hint => by
    have hc : c ≠ '\n' :=
      hint c (by rw [List.dropLast_cons₂]; exact List.mem_cons_self _ _)
    have hr : readlines (c1 :: cs1) = [c1 :: cs1] :=
      readlines_singleton (c1 :: cs1) (by simp)
        (fun d hd =>
          hint d (by rw [List.dropLast_cons₂]; exact List.mem_cons_of_mem _ hd))
    exact readlines_cons_of_cons c _ _ _ hc hr

/-- Prepending a newline-terminated line with no inner newline prepends
that line to the `readlines` decomposition. -/
theorem readlines_append :
    ∀ l s : Content, l ≠ [] → l.getLast? = some '\n' →
      (∀ c ∈ l.dropLast, c ≠ '\n') →
      readlines (l ++ s) = l :: readlines s
  | [], _, hne, _, _ => absurd rfl hne
  | [c], s, _, hlast, _ => by
    have hc : c = '\n' := by simpa using hlast
    subst hc
    rw [List.singleton_append, readlines_cons_nl]
  | c :: c1 :: cs1, s, _, hlast, hint => by
    have hc : c ≠ '\n' :=
      hint c (by rw [List.dropLast_cons₂]; exact List.mem_cons_self _ _)
    have hr : readlines ((c1 :: cs1) ++ s) = (c1 :: cs1) :: readlines s :=
      readlines_append (c1 :: cs1) s (by simp)
        (by rw [← List.getLast?_cons_cons (a := c)]; exact hlast)
        (fun d hd =>
          hint d (by rw [List.dropLast_cons₂]; exact List.mem_cons_of_mem _ hd))
    have heq : (c :: c1 :: cs1) ++ s = c :: ((c1 :: cs1) ++ s) := rfl
    rw [heq, readlines_cons_of_cons c _ _ _ hc hr]

/-- `readlines` is a left inverse of `flatten` on well-formed line
lists: every line nonempty with no inner newline, every non-final line
newline-terminated. -/
theorem readlines_flatten :
    ∀ ls : List Content, ls ≠ [] →
      (∀ l ∈ ls.dropLast, l.getLast? = some '\n') →
      (∀ l ∈ ls, l ≠ []) →
      (∀ l ∈ ls, ∀ c ∈ l.dropLast, c ≠ '\n') →
      readlines ls.flatten = ls
  | [], hne, _, _, _ => absurd rfl hne
  | [l], _, _, hne, hint => by
    have : ([l] : List Content).flatten = l := by simp
    rw [this,
      readlines_singleton l (hne l (List.mem_singleton.mpr rfl))
        (hint l (List.mem_singleton.mpr rfl))]
  | l :: l1 :: ls1, _, hnl, hne, hint => by
    rw [List.flatten_cons,
      readlines_append l _ (hne l (List.mem_cons_self _ _))
        (hnl l (by rw [List.dropLast_cons₂]; exact List.mem_cons_self _ _))
        (hint l (List.mem_cons_self _ _)),
      readlines_flatten (l1 :: ls1) (by simp)
        (fun m hm =>
          hnl m (by rw [List.dropLast_cons₂]; exact List.mem_cons_of_mem _ hm))
        (fun m hm => hne m (List.mem_cons_of_mem _ hm))
        (fun m hm => hint m (List.mem_cons_of_mem _ hm))]

/-! ### Characterization of `append_rootwait` -/

/-- On a directory holding exactly one file whose last line starts with
`options `, `append_rootwait` performs listdir, read, unlink, write in
that order and returns the directory with that file's content replaced
by `patchedContent`. -/
theorem append_rootwait_ok (path name : String) (content options_line : Content)
    (hlast : (readlines content).getLast? = some options_line)
    (hpre : optionsPrefix.isPrefixOf options_line = true) :
    append_rootwait path [(name, content)] =
      ([FsOp.listdir (entriesDir path),
        FsOp.readFile (entriesDir path ++ name),
        FsOp.unlink (entriesDir path ++ name),
        FsOp.writeFile (entriesDir path ++ name)
          ((readlines content).dropLast ++ [patchedLine options_line]).flatten],
       Except.ok
         [(name,
           ((readlines content).dropLast ++ [patchedLine options_line]).flatten)]) := by
  simp [append_rootwait, hlast, hpre, patchedLine]

/-- The patched last line is nonempty, ends with a newline, and has no
inner newline, provided the original last line came from `readlines`. -/
theorem patchedLine_wf (content options_line : Content)
    (hlast : (readlines content).getLast? = some options_line) :
    patchedLine options_line ≠ [] ∧
      (patchedLine options_line).getLast? = some '\n' ∧
      ∀ c ∈ (patchedLine options_line).dropLast, c ≠ '\n' := by
  have hmem : options_line ∈ readlines content :=
    List.mem_of_mem_getLast? (by rw [hlast]; rfl)
  refine ⟨by simp [patchedLine, rootwaitSuffix], ?_, ?_⟩
  · rw [patchedLine, rootwaitSuffix]
    rw [List.getLast?_append_of_ne_nil _ (by simp)]
    rfl
  · intro c hc
    rw [patchedLine, rootwaitSuffix,
      List.dropLast_append_of_ne_nil _ (by simp)] at hc
    rcases List.mem_append.mp hc with hc | hc
    · exact readlines_no_inner_nl content options_line hmem c hc
    · intro h
      subst h
      exact absurd hc (by decide)

/-- Reading back the rewritten file yields exactly the original lines
with the last one replaced by the patched line. -/
theorem readlines_patchedContent (content options_line : Content)
    (hlast : (readlines content).getLast? = some options_line) :
    readlines ((readlines content).dropLast ++ [patchedLine options_line]).flatten =
      (readlines content).dropLast ++ [patchedLine options_line] := by
  obtain ⟨h1, h2, h3⟩ := patchedLine_wf content options_line hlast
  apply readlines_flatten
  · simp
  · intro l hl
    rw [List.dropLast_concat] at hl
    exact readlines_dropLast_nl content l hl
  · intro l hl
    rcases List.mem_append.mp hl with hl | hl
    · exact readlines_ne_nil content l (List.mem_of_mem_dropLast hl)
    · rw [List.mem_singleton.mp hl]; exact h1
  · intro l hl
    rcases List.mem_append.mp hl with hl | hl
    · exact readlines_no_inner_nl content l (List.mem_of_mem_dropLast hl)
    · rw [List.mem_singleton.mp hl]; exact h3

/-! ### Claims -/

/-- C1 (counterexample): on a file whose single line `options abc` is
not newline-terminated, the code removes the last character `c` (not a
trailing newline, there is none) and produces last line
`options ab rootwait\n`, which differs from the claim's
`old last line with its trailing newline removed + " rootwait\n"`,
i.e. `options abc rootwait\n`. -/
theorem C1_counterexample :
    (append_rootwait "/img" [("entry.conf", "options abc".toList)]).2 =
      Except.ok [("entry.conf", "options ab rootwait\n".toList)] ∧
    "options ab rootwait\n".toList ≠ "options abc rootwait\n".toList :=
  ⟨rfl, by decide⟩

/-- C1 (amended): for every entry file whose last line starts with
`options `, `append_rootwait` replaces the last line with the old last
line with its final character removed (the trailing newline character,
whenever the line is newline-terminated), followed by a single space,
the token `rootwait`, and a trailing newline — i.e. `patchedLine`. -/
theorem C1_last_char_rewrite (path name : String)
    (content options_line : Content)
    (hlast : (readlines content).getLast? = some options_line)
    (hpre : optionsPrefix.isPrefixOf options_line = true) :
    (append_rootwait path [(name, content)]).2 =
      Except.ok [(name,
        ((readlines content).dropLast ++ [patchedLine options_line]).flatten)] ∧
    readlines (((readlines content).dropLast ++
        [patchedLine options_line]).flatten) =
      (readlines content).dropLast ++ [patchedLine options_line] ∧
    patchedLine options_line =
      options_line.dropLast ++ (' ' :: "rootwait".toList ++ ['\n']) :=
  ⟨congrArg Prod.snd (append_rootwait_ok path name content options_line hlast hpre),
   readlines_patchedContent content options_line hlast,
   rfl⟩

/-- C1 (witness): instantiation on a newline-terminated last line. -/
theorem C1_witness :
    (append_rootwait "/img" [("e.conf", "options a\n".toList)]).2 =
      Except.ok [("e.conf",
        ((readlines "options a\n".toList).dropLast ++
          [patchedLine "options a\n".toList]).flatten)] ∧
    readlines (((readlines "options a\n".toList).dropLast ++
        [patchedLine "options a\n".toList]).flatten) =
      (readlines "options a\n".toList).dropLast ++
        [patchedLine "options a\n".toList] ∧
    patchedLine "options a\n".toList =
      ("options a\n".toList).dropLast ++ (' ' :: "rootwait".toList ++ ['\n']) :=
  C1_last_char_rewrite "/img" "e.conf" "options a\n".toList
    "options a\n".toList (by decide) (by decide)

/-- C2: `append_rootwait` succeeds only when the directory listing has
exactly one name; with zero or several names it raises the exception
carrying the entries directory path and the listing found. -/
theorem C2_exactly_one_entry (path : String) (dir : Dir) :
    (∀ d', (append_rootwait path dir).2 = Except.ok d' →
      (dir.map Prod.fst).length = 1) ∧
    ((dir.map Prod.fst).length ≠ 1 →
      append_rootwait path dir =
        ([FsOp.listdir (entriesDir path)],
         Except.error
           (PyErr.wrongEntryCount (entriesDir path) (dir.map Prod.fst)))) := by
  have herr : (dir.map Prod.fst).length ≠ 1 →
      append_rootwait path dir =
        ([FsOp.listdir (entriesDir path)],
         Except.error
           (PyErr.wrongEntryCount (entriesDir path) (dir.map Prod.fst))) := by
    intro hlen
    rw [List.length_map] at hlen
    simp [append_rootwait, hlen]
  refine ⟨?_, herr⟩
  intro d' hok
  by_contra hlen
  rw [herr hlen] at hok
  simp at hok

/-- C2 (witness): a two-entry listing fails with the exception naming
the directory and the listing; a one-entry listing succeeds. -/
theorem C2_witness :
    append_rootwait "/img" [("a.conf", []), ("b.conf", [])] =
      ([FsOp.listdir (entriesDir "/img")],
       Except.error
         (PyErr.wrongEntryCount (entriesDir "/img") ["a.conf", "b.conf"])) ∧
    ([("e.conf", "options a\n".toList)].map
        (Prod.fst (α := String) (β := Content))).length = 1 :=
  ⟨(C2_exactly_one_entry "/img" [("a.conf", []), ("b.conf", [])]).2 (by decide),
   (C2_exactly_one_entry "/img" [("e.conf", "options a\n".toList)]).1
     [("e.conf", "options a rootwait\n".toList)] (by decide)⟩

/-- C3: when the last line does not start with `options `, the run
raises the bad-options-line exception, performs only the directory
listing and the read (no unlink, no write), and the directory state
after its operations is unchanged. -/
theorem C3_prefix_error_no_write (path name : String)
    (content options_line : Content)
    (hlast : (readlines content).getLast? = some options_line)
    (hpre : optionsPrefix.isPrefixOf options_line = false) :
    append_rootwait path [(name, content)] =
      ([FsOp.listdir (entriesDir path),
        FsOp.readFile (entriesDir path ++ name)],
       Except.error PyErr.badOptionsLine) ∧
    applyOps (entriesDir path) [(name, content)]
      (append_rootwait path [(name, content)]).1 = [(name, content)] := by
  have h1 : append_rootwait path [(name, content)] =
      ([FsOp.listdir (entriesDir path),
        FsOp.readFile (entriesDir path ++ name)],
       Except.error PyErr.badOptionsLine) := by
    simp [append_rootwait, hlast, hpre]
  exact ⟨h1, by rw [h1]; rfl⟩

/-- C3 (witness): instantiation on a file whose last line is
`title Test\n`. -/
theorem C3_witness :
    append_rootwait "/img" [("e.conf", "title Test\n".toList)] =
      ([FsOp.listdir (entriesDir "/img"),
        FsOp.readFile (entriesDir "/img" ++ "e.conf")],
       Except.error PyErr.badOptionsLine) ∧
    applyOps (entriesDir "/img") [("e.conf", "title Test\n".toList)]
      (append_rootwait "/img" [("e.conf", "title Test\n".toList)]).1 =
      [("e.conf", "title Test\n".toList)] :=
  C3_prefix_error_no_write "/img" "e.conf" "title Test\n".toList
    "title Test\n".toList (by decide) (by decide)

/-- C4: on success with `N > 1` lines, reading back the rewritten file
yields the first `N − 1` original lines byte-for-byte (terminators
included), the line count is unchanged, and the last line differs from
the original. -/
theorem C4_lines_preserved (path name : String)
    (content options_line : Content)
    (hlast : (readlines content).getLast? = some options_line)
    (hpre : optionsPrefix.isPrefixOf options_line = true)
    (hN : 1 < (readlines content).length) :
    ∃ nc, (append_rootwait path [(name, content)]).2 =
        Except.ok [(name, nc)] ∧
      (readlines nc).dropLast = (readlines content).dropLast ∧
      (readlines nc).length = (readlines content).length ∧
      (readlines nc).getLast? ≠ (readlines content).getLast? := by
  refine ⟨((readlines content).dropLast ++ [patchedLine options_line]).flatten,
    congrArg Prod.snd (append_rootwait_ok path name content options_line hlast hpre),
    ?_, ?_, ?_⟩ <;>
    rw [readlines_patchedContent content options_line hlast]
  · exact List.dropLast_concat
  · rw [List.length_append, List.length_dropLast]
    simp only [List.length_singleton]
    omega
  · rw [List.getLast?_concat, hlast]
    intro h
    have heq : patchedLine options_line = options_line := Option.some.inj h
    have hlen := congrArg List.length heq
    have h10 : rootwaitSuffix.length = 10 := rfl
    rw [patchedLine, List.length_append, List.length_dropLast, h10] at hlen
    have hne : options_line ≠ [] :=
      readlines_ne_nil content options_line
        (List.mem_of_mem_getLast? (by rw [hlast]; rfl))
    have hpos : 0 < options_line.length := List.length_pos.mpr hne
    omega

/-- C4 (witness): instantiation on the two-line file
`title T\noptions a\n`. -/
theorem C4_witness :
    ∃ nc, (append_rootwait "/img"
        [("e.conf", "title T\noptions a\n".toList)]).2 =
        Except.ok [("e.conf", nc)] ∧
      (readlines nc).dropLast =
        (readlines "title T\noptions a\n".toList).dropLast ∧
      (readlines nc).length =
        (readlines "title T\noptions a\n".toList).length ∧
      (readlines nc).getLast? ≠
        (readlines "title T\noptions a\n".toList).getLast? :=
  C4_lines_preserved "/img" "e.conf" "title T\noptions a\n".toList
    "options a\n".toList (by decide) (by decide) (by decide)

/-- C5: `append_rootwait` is not idempotent: one run on last line
`options console=ttyS0\n` yields `options console=ttyS0 rootwait\n`;
a second run on the result yields
`options console=ttyS0 rootwait rootwait\n` — nothing checks for a
pre-existing `rootwait` token. -/
theorem C5_not_idempotent :
    (append_rootwait "/r" [("e.conf", "options console=ttyS0\n".toList)]).2 =
      Except.ok [("e.conf", "options console=ttyS0 rootwait\n".toList)] ∧
    (append_rootwait "/r"
        [("e.conf", "options console=ttyS0 rootwait\n".toList)]).2 =
      Except.ok
        [("e.conf", "options console=ttyS0 rootwait rootwait\n".toList)] :=
  ⟨rfl, rfl⟩

/-- C6: the `__main__` exit contract: wrong argument count exits `-1`
with no output and no filesystem operation; one argument and success
exits `0` printing nothing; one argument and any exception prints its
description to standard output and exits `-1`. -/
theorem C6_exit_contract (argv : List String) (dir : Dir) :
    (argv.length ≠ 2 →
      main_block argv dir =
        { exitCode := -1, stdout := [], ops := [], dir := dir }) ∧
    (∀ a path d', argv = [a, path] →
      (append_rootwait path dir).2 = Except.ok d' →
      main_block argv dir =
        { exitCode := 0, stdout := [],
          ops := (append_rootwait path dir).1, dir := d' }) ∧
    (∀ a path e, argv = [a, path] →
      (append_rootwait path dir).2 = Except.error e →
      main_block argv dir =
        { exitCode := -1, stdout := [e.str],
          ops := (append_rootwait path dir).1, dir := dir }) := by
  refine ⟨fun h => by simp [main_block, h], ?_, ?_⟩
  · rintro a path d' rfl hok
    rcases hap : append_rootwait path dir with ⟨ops, res⟩
    rw [hap] at hok
    replace hok : res = Except.ok d' := hok
    subst hok
    simp [main_block, hap]
  · rintro a path e rfl herr
    rcases hap : append_rootwait path dir with ⟨ops, res⟩
    rw [hap] at herr
    replace herr : res = Except.error e := herr
    subst herr
    simp [main_block, hap]

/-- C6 (witness): the three branches at concrete inputs: no argument;
one argument with a successful patch; one argument with a failing
(empty) entries directory. -/
theorem C6_witness :
    main_block ["script"] [("e.conf", "options a\n".toList)] =
      { exitCode := -1, stdout := [], ops := [],
        dir := [("e.conf", "options a\n".toList)] } ∧
    main_block ["script", "/img"] [("e.conf", "options a\n".toList)] =
      { exitCode := 0, stdout := [],
        ops := (append_rootwait "/img" [("e.conf", "options a\n".toList)]).1,
        dir := [("e.conf", "options a rootwait\n".toList)] } ∧
    main_block ["script", "/img"] [] =
      { exitCode := -1,
        stdout := [(PyErr.wrongEntryCount (entriesDir "/img") []).str],
        ops := (append_rootwait "/img" ([] : Dir)).1, dir := [] } :=
  ⟨(C6_exit_contract ["script"] [("e.conf", "options a\n".toList)]).1
     (by decide),
   (C6_exit_contract ["script", "/img"] [("e.conf", "options a\n".toList)]).2.1
     "script" "/img" [("e.conf", "options a rootwait\n".toList)] rfl (by decide),
   (C6_exit_contract ["script", "/img"] []).2.2
     "script" "/img" (PyErr.wrongEntryCount (entriesDir "/img") []) rfl
     (by decide)⟩

/-- C7 (counterexample): an execution on the §8 scenario in which the
write step fails right after the unlink: after performing every
operation up to and including the `unlink` (the last one being the
`unlink` itself, with only the `writeFile` left), no file exists at the
entry file's path — refuting the claim that a file still exists there
in every such execution. -/
theorem C7_counterexample :
    ((append_rootwait "/img"
        [("entry.conf",
          "title Test\nlinux /vmlinuz\noptions root=/dev/sda1\n".toList)]).1).dropLast.getLast? =
      some (FsOp.unlink (entriesDir "/img" ++ "entry.conf")) ∧
    existsAt (entriesDir "/img")
      (applyOps (entriesDir "/img")
        [("entry.conf",
          "title Test\nlinux /vmlinuz\noptions root=/dev/sda1\n".toList)]
        ((append_rootwait "/img"
          [("entry.conf",
            "title Test\nlinux /vmlinuz\noptions root=/dev/sda1\n".toList)]).1).dropLast)
      (entriesDir "/img" ++ "entry.conf") = false :=
  ⟨rfl, rfl⟩

/-- C7 (amended): the code has the durability gap the spec's §9
acknowledges: on every successful run the final operation is the
`writeFile`, and after executing all operations before it (so when the
write step fails after the original file has been removed) no file
exists at the entry file's path. -/
theorem C7_durability_gap (path name : String)
    (content options_line : Content)
    (hlast : (readlines content).getLast? = some options_line)
    (hpre : optionsPrefix.isPrefixOf options_line = true) :
    (append_rootwait path [(name, content)]).1.getLast? =
      some (FsOp.writeFile (entriesDir path ++ name)
        (((readlines content).dropLast ++ [patchedLine options_line]).flatten)) ∧
    existsAt (entriesDir path)
      (applyOps (entriesDir path) [(name, content)]
        (append_rootwait path [(name, content)]).1.dropLast)
      (entriesDir path ++ name) = false := by
  rw [append_rootwait_ok path name content options_line hlast hpre]
  refine ⟨rfl, ?_⟩
  simp [applyOps, applyOp, existsAt]

/-- C7 (witness): instantiation of the durability gap on a concrete
single-line file. -/
theorem C7_witness :
    (append_rootwait "/img" [("e.conf", "options a\n".toList)]).1.getLast? =
      some (FsOp.writeFile (entriesDir "/img" ++ "e.conf")
        (((readlines "options a\n".toList).dropLast ++
          [patchedLine "options a\n".toList]).flatten)) ∧
    existsAt (entriesDir "/img")
      (applyOps (entriesDir "/img") [("e.conf", "options a\n".toList)]
        (append_rootwait "/img" [("e.conf", "options a\n".toList)]).1.dropLast)
      (entriesDir "/img" ++ "e.conf") = false :=
  C7_durability_gap "/img" "e.conf" "options a\n".toList
    "options a\n".toList (by decide) (by decide)

/-- C8: the §8 end-to-end scenario: root `/img`, one entry file
`entry.conf` containing `title Test\nlinux /vmlinuz\noptions
root=/dev/sda1\n`; the run succeeds and the file afterwards contains
exactly `title Test\nlinux /vmlinuz\noptions root=/dev/sda1
rootwait\n`. -/
theorem C8_scenario :
    (append_rootwait "/img"
        [("entry.conf",
          "title Test\nlinux /vmlinuz\noptions root=/dev/sda1\n".toList)]).2 =
      Except.ok
        [("entry.conf",
          "title Test\nlinux /vmlinuz\noptions root=/dev/sda1 rootwait\n".toList)] :=
  rfl

/-- C9: a single empty entry file fails with the `IndexError` from
`entry_content[-1]` — an exception distinct from both documented
validation errors — after performing only the listing and the read, and
the directory state after its operations is unchanged. -/
theorem C9_empty_file (path name : String) :
    append_rootwait path [(name, [])] =
      ([FsOp.listdir (entriesDir path),
        FsOp.readFile (entriesDir path ++ name)],
       Except.error PyErr.indexError) ∧
    (∀ d lst, PyErr.indexError ≠ PyErr.wrongEntryCount d lst) ∧
    PyErr.indexError ≠ PyErr.badOptionsLine ∧
    applyOps (entriesDir path) [(name, [])]
      (append_rootwait path [(name, [])]).1 = [(name, [])] := by
  have h1 : append_rootwait path [(name, [])] =
      ([FsOp.listdir (entriesDir path),
        FsOp.readFile (entriesDir path ++ name)],
       Except.error PyErr.indexError) := by
    simp [append_rootwait, readlines]
  refine ⟨h1, ?_, ?_, ?_⟩
  · intro d lst h
    cases h
  · intro h
    cases h
  · rw [h1]
    rfl

/-- C10: a one-line entry file whose line starts with `options ` and
ends with a newline is patched successfully, and the rewritten file is
exactly that single transformed line. -/
theorem C10_single_line (path name : String) (content l : Content)
    (h1 : readlines content = [l])
    (hpre : optionsPrefix.isPrefixOf l = true)
    (_hnl : l.getLast? = some '\n') :
    (append_rootwait path [(name, content)]).2 =
      Except.ok [(name, patchedLine l)] ∧
    readlines (patchedLine l) = [patchedLine l] := by
  have hlast : (readlines content).getLast? = some l := by
    rw [h1]; rfl
  have hok :=
    congrArg Prod.snd (append_rootwait_ok path name content l hlast hpre)
  rw [h1] at hok
  have hrt := readlines_patchedContent content l hlast
  rw [h1] at hrt
  simp only [List.dropLast_single, List.nil_append, List.flatten_cons,
    List.flatten_nil, List.append_nil] at hok hrt
  exact ⟨hok, hrt⟩

/-- C10 (witness): instantiation on the one-line file `options x\n`. -/
theorem C10_witness :
    (append_rootwait "/img" [("e.conf", "options x\n".toList)]).2 =
      Except.ok [("e.conf", patchedLine "options x\n".toList)] ∧
    readlines (patchedLine "options x\n".toList) =
      [patchedLine "options x\n".toList] :=
  C10_single_line "/img" "e.conf" "options x\n".toList
    "options x\n".toList (by decide) (by decide) (by decide)

end LiveImage
